import Mathlib

/- Shallow embedding of src/bot.py: the item codec, the spreadsheet-backed
   inventory store operations, the /add handler argument split, the clear
   and stats handlers, the remove button handler and the webhook
   acknowledgement path.  The worksheet of one chat is modelled by its list
   of data rows (column A, header row excluded); each row is a list of
   characters.  Machine-level regular expressions are embedded by their
   action on character lists, restricted to the ASCII alphabet. -/

/-- One spreadsheet cell / one line of text. -/
abbrev Row := List Char

/-- Whitespace as recognised by Python str.strip and the regex class
    (the embedding restricts attention to the ASCII subset). -/
def isPySpace (c : Char) : Bool :=
  c == ' ' || c == '\t' || c == '\n' || c == '\r' || c == '\x0b' || c == '\x0c'

/-- Remove leading whitespace. -/
def stripL (s : List Char) : List Char := s.dropWhile isPySpace

/-- Remove trailing whitespace. -/
def stripR (s : List Char) : List Char := (s.reverse.dropWhile isPySpace).reverse

/-- Python str.strip: remove leading and trailing whitespace. -/
def strip (s : List Char) : List Char := stripR (stripL s)

/-- Value of a decimal digit string, as computed by Python int on the
    digit group of the regex match. -/
def digitsVal (ds : List Char) : Nat :=
  ds.foldl (fun a c => 10 * a + (c.toNat - 48)) 0

/-- The decimal digit character for d (0-9). -/
def digitChar (d : Nat) : Char :=
  if d = 0 then '0' else if d = 1 then '1' else if d = 2 then '2'
  else if d = 3 then '3' else if d = 4 then '4' else if d = 5 then '5'
  else if d = 6 then '6' else if d = 7 then '7' else if d = 8 then '8' else '9'

/-- Fuel-driven decimal printer (helper for natDigits). -/
def natDigitsAux : Nat → Nat → List Char
  | 0, _ => []
  | _ + 1, 0 => []
  | fuel + 1, n + 1 => natDigitsAux fuel ((n + 1) / 10) ++ [digitChar ((n + 1) % 10)]

/-- Decimal representation of n, as produced by Python str for n >= 1. -/
def natDigits (n : Nat) : List Char := natDigitsAux n n

/-- Trailing-quantity matcher of the parse regex of the sheets manager
    (src/bot.py line 123): a non-empty lazy prefix, optional whitespace, a
    final parenthesised digit group, end of string.  The input is the
    already stripped row, so the closing parenthesis must be the last
    character.  Returns the raw text before the opening parenthesis and the
    digit group value.  The lazy prefix group must be non-empty, hence the
    test on pre. -/
def parseSuffix (t : List Char) : Option (List Char × Nat) :=
  match t.reverse with
  | ')' :: rest =>
    match rest.dropWhile Char.isDigit with
    | '(' :: pre =>
      if (rest.takeWhile Char.isDigit).isEmpty || pre.isEmpty then none
      else some (pre.reverse, digitsVal (rest.takeWhile Char.isDigit).reverse)
    | _ => none
  | _ => none

/-- The parse of one stored row (src/bot.py lines 121-129): on a trailing
    digit-group match the name is the stripped prefix and the quantity the
    digit value, otherwise the whole stripped row with quantity 1. -/
def parse_item (row : Row) : Row × Nat :=
  match parseSuffix (strip row) with
  | some pq => (strip pq.1, pq.2)
  | none => (strip row, 1)

/-- The row text written by the add operation (inline in src/bot.py lines
    97 and 104): the bare name when the quantity is at most 1, else the
    name followed by the parenthesised quantity. -/
def format_item (item : Row) (quantity : Nat) : Row :=
  if quantity > 1 then item ++ ' ' :: '(' :: (natDigits quantity ++ [')']) else item

/-- The /add handler regex search (src/bot.py line 178): a trailing
    parenthesised digit group preceded by optional whitespace, with no
    requirement of a non-empty prefix.  Returns the raw text before the
    opening parenthesis and the quantity. -/
def searchTrailingQty (t : List Char) : Option (List Char × Nat) :=
  match (stripR t).reverse with
  | ')' :: rest =>
    match rest.dropWhile Char.isDigit with
    | '(' :: pre =>
      if (rest.takeWhile Char.isDigit).isEmpty then none
      else some (pre.reverse, digitsVal (rest.takeWhile Char.isDigit).reverse)
    | _ => none
  | _ => none

/-- The argument-splitting logic of the /add handler (src/bot.py lines
    176-191); none models the empty-name usage error. -/
def handlerSplit (fullText : List Char) : Option (Row × Nat) :=
  match searchTrailingQty fullText with
  | some pq => if (strip pq.1).isEmpty then none else some (strip pq.1, pq.2)
  | none => if (strip fullText).isEmpty then none else some (strip fullText, 1)

/-- The list read (src/bot.py lines 69-77), success path: the data rows of
    column A that are non-blank after stripping, in storage order. -/
def get_items (sheet : List Row) : List Row :=
  sheet.filter (fun r => !(strip r).isEmpty)

/-- The linear duplicate search of the add operation (src/bot.py lines
    84-92): index and parsed quantity of the first listed row whose parsed
    name equals the item. -/
def findExistingAux (item : Row) : Nat → List Row → Option (Nat × Nat)
  | _, [] => none
  | i, r :: rs =>
    if (parse_item r).1 = item then some (i, (parse_item r).2)
    else findExistingAux item (i + 1) rs

/-- The duplicate search started at index 0. -/
def find_existing (items : List Row) (item : Row) : Option (Nat × Nat) :=
  findExistingAux item 0 items

/-- The add operation (src/bot.py lines 79-109), success path: merge into
    the row found by the duplicate search (cell A at index+2 is the data
    row at that index) or append a new formatted row. -/
def add_item (sheet : List Row) (item : Row) (quantity : Nat) : List Row :=
  match find_existing (get_items sheet) item with
  | some iq => sheet.set iq.1 (format_item item (iq.2 + quantity))
  | none => sheet ++ [format_item item quantity]

/-- The add operation with its two external-store failure points explicit:
    failLoad models a failure of the column read inside the list read
    (which catches the error and returns the empty list, src/bot.py lines
    75-77), failWrite a failure of the update or append call (re-raised,
    lines 107-109).  The worksheet handle itself is assumed cached. -/
def add_item_fallible (failLoad failWrite : Bool) (sheet : List Row) (item : Row)
    (quantity : Nat) : Except Unit (List Row) :=
  let items := if failLoad then [] else get_items sheet
  match find_existing items item with
  | some iq =>
    if failWrite then Except.error ()
    else Except.ok (sheet.set iq.1 (format_item item (iq.2 + quantity)))
  | none =>
    if failWrite then Except.error ()
    else Except.ok (sheet ++ [format_item item quantity])

/-- The remove operation (src/bot.py lines 111-119): delete worksheet row
    index+2, i.e. the data row at the given index. -/
def remove_item (sheet : List Row) (index : Nat) : List Row := sheet.eraseIdx index

/-- Outcome reported by the remove button handler. -/
inductive RemoveOutcome
  | removed (item : Row)
  | alreadyRemoved
deriving DecidableEq

/-- The remove branch of the button handler (src/bot.py lines 236-244):
    re-fetch the list, range-check the requested position against the
    fresh fetch, delete by data index and report the fresh name, or report
    the benign already-removed message when out of range. -/
def remove_by_position (sheet : List Row) (p : Int) : List Row × RemoveOutcome :=
  if 0 ≤ p ∧ p < ((get_items sheet).length : Int) then
    (remove_item sheet p.toNat, RemoveOutcome.removed ((get_items sheet).getD p.toNat []))
  else (sheet, RemoveOutcome.alreadyRemoved)

/-- The fixed header cell written when a worksheet is created
    (src/bot.py line 58). -/
def headerCell : Row := ("Артикул").data

/-- Data rows up to the last one with content, as the column read of the
    external row store reports them. -/
def dropTrailingEmpty (sheet : List Row) : List Row :=
  (sheet.reverse.dropWhile (fun r => r.isEmpty)).reverse

/-- The full column as read by the clear handler: header followed by the
    data rows up to the last non-empty one. -/
def col_values (sheet : List Row) : List Row := headerCell :: dropTrailingEmpty sheet

/-- The clear handler (src/bot.py lines 218-229), success path: count the
    column rows and, when more than the header is present, delete worksheet
    rows 2..rows, i.e. drop the first rows-1 data rows. -/
def clear_list (sheet : List Row) : List Row :=
  if (col_values sheet).length > 1 then sheet.drop ((col_values sheet).length - 1)
  else sheet

/-- The (name, quantity) pairs of the listed entries of a scope. -/
def entriesOf (sheet : List Row) : List (Row × Nat) := (get_items sheet).map parse_item

/-- The stats handler (src/bot.py lines 160-165): number of listed rows and
    the sum of their parsed quantities. -/
def stats_of (sheet : List Row) : Nat × Nat :=
  ((get_items sheet).length, ((get_items sheet).map (fun r => (parse_item r).2)).sum)

/-- Case and whitespace normalisation of a name, used to state the claimed
    uniqueness-modulo-normalisation invariant. -/
def normName (s : Row) : Row := (strip s).map Char.toLower

/-- Observable outcome of one webhook POST. -/
structure WebhookResult where
  status : Nat
  body : Row
  enqueued : Bool
deriving DecidableEq

/-- What the framework body decode hands the handler.  With default
    settings the framework body parser raises on an unparseable JSON body
    and the framework answers the request itself with status 400; a body
    that parses to JSON null comes back as None; any other valid JSON
    value is returned as parsed data, object or not. -/
inductive BodyDecode
  | unparseable
  | jsonNull
  | nonObject
  | object (deJsonOk : Bool)
deriving DecidableEq

/-- The webhook endpoint (src/bot.py lines 298-315).  The bot id is
    checked first (lines 300-303): on mismatch the handler returns OK
    without reading the body.  Then the body decode runs: an unparseable
    body raises inside the framework decode call, which answers 400
    (framework error bodies are abbreviated to their reason phrase here).
    A body parsing to JSON null makes the decoded value None and is
    acknowledged (lines 305-307).  The attribute access on the decoded
    value at line 308 sits outside the try block, so a valid-JSON
    non-object body (a list, number, string or boolean) raises there and
    the framework answers 500.  For an object body the update decode and
    queue put of lines 310-315 are wrapped in try/except, so the handler
    always returns OK; an update is enqueued only when both succeed.  The
    framework maps a bare string return value to status 200. -/
def telegram_webhook (expectedId botId : Row) (body : BodyDecode) : WebhookResult :=
  if botId ≠ expectedId then ⟨200, ("OK").data, false⟩
  else
    match body with
    | BodyDecode.unparseable => ⟨400, ("Bad Request").data, false⟩
    | BodyDecode.jsonNull => ⟨200, ("OK").data, false⟩
    | BodyDecode.nonObject => ⟨500, ("Internal Server Error").data, false⟩
    | BodyDecode.object deJsonOk => ⟨200, ("OK").data, deJsonOk⟩

/-- Dropping a prefix never lengthens a list. -/
theorem length_dropWhile_le (p : Char → Bool) (l : List Char) :
    (l.dropWhile p).length ≤ l.length := by
  induction l with
  | nil => simp
  | cons a t ih =>
    rw [List.dropWhile_cons]
    by_cases h : p a
    · simp only [h, if_true]
      exact Nat.le_trans ih (Nat.le_succ _)
    · simp [h]

/-- A dropWhile that keeps the length keeps the list. -/
theorem dropWhile_eq_self_of_length (p : Char → Bool) (l : List Char)
    (h : (l.dropWhile p).length = l.length) : l.dropWhile p = l := by
  cases l with
  | nil => simp
  | cons a t =>
    rw [List.dropWhile_cons] at *
    by_cases hp : p a
    · simp only [hp, if_true] at h
      have := length_dropWhile_le p t
      simp at h
      omega
    · simp [hp]

/-- A string equal to its strip is equal to its left strip. -/
theorem stripL_eq_self (s : List Char) (h : strip s = s) : stripL s = s := by
  have h1 : (stripL s).length ≤ s.length := length_dropWhile_le isPySpace s
  have h2 : (strip s).length ≤ (stripL s).length := by
    have := length_dropWhile_le isPySpace (stripL s).reverse
    simp only [strip, stripR, List.length_reverse] at *
    omega
  have h3 : (stripL s).length = s.length := by
    rw [h] at h2
    omega
  exact dropWhile_eq_self_of_length isPySpace s h3

/-- A string equal to its strip is equal to its right strip. -/
theorem stripR_eq_self (s : List Char) (h : strip s = s) : stripR s = s := by
  have hL := stripL_eq_self s h
  calc stripR s = stripR (stripL s) := by rw [hL]
  _ = strip s := rfl
  _ = s := h

/-- The right strip leaves the reversed string fixed under dropWhile. -/
theorem dropWhile_reverse_of_stripR (s : List Char) (h : stripR s = s) :
    s.reverse.dropWhile isPySpace = s.reverse := by
  have := congrArg List.reverse h
  simpa [stripR] using this

/-- The head of a left-stripped cons is not whitespace. -/
theorem head_not_space (c : Char) (t : List Char) (h : stripL (c :: t) = c :: t) :
    isPySpace c = false := by
  by_contra hc
  have hc' : isPySpace c = true := by
    revert hc
    cases isPySpace c <;> simp
  simp only [stripL, List.dropWhile_cons, hc', if_true] at h
  have h1 := length_dropWhile_le isPySpace t
  have h2 := congrArg List.length h
  simp at h2
  omega

/-- dropWhile keeps a list whose head fails the predicate. -/
theorem stripL_of_head (c : Char) (t : List Char) (hc : isPySpace c = false) :
    stripL (c :: t) = c :: t := by
  simp [stripL, List.dropWhile_cons, hc]

/-- A string whose last character is not whitespace is right-stripped. -/
theorem stripR_of_last (s : List Char) (c : Char) (t : List Char)
    (hc : isPySpace c = false) (h : s.reverse = c :: t) : stripR s = s := by
  rw [stripR, h, List.dropWhile_cons, hc]
  simp only [Bool.false_eq_true, if_false]
  rw [← h, List.reverse_reverse]

/-- Stripping a trimmed non-empty string with one trailing blank recovers
    the string. -/
theorem strip_append_space (name : List Char) (hne : name ≠ [])
    (h : strip name = name) : strip (name ++ [' ']) = name := by
  obtain ⟨c, t, rfl⟩ := List.exists_cons_of_ne_nil hne
  have hL := stripL_eq_self _ h
  have hR := stripR_eq_self _ h
  have hc := head_not_space c t hL
  have h1 : stripL ((c :: t) ++ [' ']) = (c :: t) ++ [' '] := by
    rw [List.cons_append]
    exact stripL_of_head c (t ++ [' ']) hc
  rw [strip, h1, stripR]
  rw [List.reverse_append]
  simp only [List.reverse_cons, List.reverse_nil, List.nil_append, List.singleton_append]
  rw [List.dropWhile_cons]
  have hsp : isPySpace ' ' = true := by decide
  have hdrop := dropWhile_reverse_of_stripR _ hR
  rw [List.reverse_cons] at hdrop
  rw [hsp, if_pos rfl, hdrop]
  simp

/-- Each digit character is a regex digit. -/
theorem digitChar_isDigit (d : Nat) (h : d < 10) : (digitChar d).isDigit = true := by
  interval_cases d <;> decide

/-- Code point of a digit character. -/
theorem digitChar_toNat (d : Nat) (h : d < 10) : (digitChar d).toNat = 48 + d := by
  interval_cases d <;> decide

/-- Peeling the last digit off a decimal string. -/
theorem digitsVal_append (xs : List Char) (c : Char) :
    digitsVal (xs ++ [c]) = 10 * digitsVal xs + (c.toNat - 48) := by
  simp [digitsVal, List.foldl_append]

/-- The fuel-driven printer prints the value back, given enough fuel. -/
theorem natDigitsAux_val : ∀ fuel n, n ≤ fuel → digitsVal (natDigitsAux fuel n) = n := by
  intro fuel
  induction fuel with
  | zero =>
    intro n h
    have hn : n = 0 := Nat.le_zero.mp h
    subst hn
    rfl
  | succ f ih =>
    intro n h
    cases n with
    | zero => rfl
    | succ m =>
      have hlt : (m + 1) / 10 < m + 1 := Nat.div_lt_self (Nat.succ_pos m) (by decide)
      have hle : (m + 1) / 10 ≤ f := by omega
      show digitsVal (natDigitsAux f ((m + 1) / 10) ++ [digitChar ((m + 1) % 10)]) = m + 1
      rw [digitsVal_append, ih _ hle, digitChar_toNat _ (Nat.mod_lt _ (by decide))]
      omega

/-- Printing then reading a number is the identity. -/
theorem natDigits_val (n : Nat) : digitsVal (natDigits n) = n :=
  natDigitsAux_val n n (Nat.le_refl n)

/-- Every character the printer emits is a digit. -/
theorem natDigitsAux_digits : ∀ fuel n c, c ∈ natDigitsAux fuel n → c.isDigit = true := by
  intro fuel
  induction fuel with
  | zero =>
    intro n c hc
    simp [natDigitsAux] at hc
  | succ f ih =>
    intro n c hc
    cases n with
    | zero => simp [natDigitsAux] at hc
    | succ m =>
      have hc' : c ∈ natDigitsAux f ((m + 1) / 10) ++ [digitChar ((m + 1) % 10)] := hc
      rcases List.mem_append.mp hc' with h | h
      · exact ih _ c h
      · have : c = digitChar ((m + 1) % 10) := List.mem_singleton.mp h
        subst this
        exact digitChar_isDigit _ (Nat.mod_lt _ (by decide))

/-- Every character of a printed number is a digit. -/
theorem natDigits_digits (n : Nat) (c : Char) (hc : c ∈ natDigits n) : c.isDigit = true :=
  natDigitsAux_digits n n c hc

/-- Positive numbers print at least one digit. -/
theorem natDigits_ne_nil (n : Nat) (h : 1 ≤ n) : natDigits n ≠ [] := by
  cases n with
  | zero => omega
  | succ m =>
    show natDigitsAux m.succ m.succ ≠ []
    simp [natDigitsAux]

/-- takeWhile over a satisfying prefix followed by a failing element. -/
theorem takeWhile_all_append (p : Char → Bool) (xs : List Char) (y : Char)
    (ys : List Char) (hx : ∀ c ∈ xs, p c = true) (hy : p y = false) :
    (xs ++ y :: ys).takeWhile p = xs := by
  induction xs with
  | nil => simp [List.takeWhile_cons, hy]
  | cons a t ih =>
    have ha : p a = true := hx a (List.mem_cons_self a t)
    rw [List.cons_append, List.takeWhile_cons, ha, if_pos rfl]
    rw [ih (fun c hc => hx c (List.mem_cons_of_mem a hc))]

/-- dropWhile over a satisfying prefix followed by a failing element. -/
theorem dropWhile_all_append (p : Char → Bool) (xs : List Char) (y : Char)
    (ys : List Char) (hx : ∀ c ∈ xs, p c = true) (hy : p y = false) :
    (xs ++ y :: ys).dropWhile p = y :: ys := by
  induction xs with
  | nil => simp [List.dropWhile_cons, hy]
  | cons a t ih =>
    have ha : p a = true := hx a (List.mem_cons_self a t)
    rw [List.cons_append, List.dropWhile_cons, ha, if_pos rfl]
    exact ih (fun c hc => hx c (List.mem_cons_of_mem a hc))

/-- Non-empty lists are not isEmpty. -/
theorem isEmpty_false_of_ne (l : List Char) (h : l ≠ []) : l.isEmpty = false := by
  cases l with
  | nil => exact absurd rfl h
  | cons a t => rfl

/-- A list ending in a non-space character is right-stripped. -/
theorem stripR_append_nonspace (u : List Char) (c : Char) (hc : isPySpace c = false) :
    stripR (u ++ [c]) = u ++ [c] := by
  rw [stripR]
  have h : (u ++ [c]).reverse = c :: u.reverse := by simp
  rw [h, List.dropWhile_cons, hc]
  simp

/-- Evaluation of the trailing-quantity matcher on a string assembled from
    a non-empty prefix, an opening parenthesis, a non-empty digit group and
    the closing parenthesis. -/
theorem parseSuffix_eval (t ds pre0 : List Char)
    (h : t.reverse = ')' :: (ds.reverse ++ '(' :: pre0.reverse))
    (hds : ds ≠ []) (hdig : ∀ c ∈ ds, c.isDigit = true) (hpre : pre0 ≠ []) :
    parseSuffix t = some (pre0, digitsVal ds) := by
  have hdig' : ∀ c ∈ ds.reverse, Char.isDigit c = true := by
    intro c hc
    exact hdig c (List.mem_reverse.mp hc)
  have hdrop : (ds.reverse ++ '(' :: pre0.reverse).dropWhile Char.isDigit
      = '(' :: pre0.reverse := dropWhile_all_append _ _ _ _ hdig' (by decide)
  have htake : (ds.reverse ++ '(' :: pre0.reverse).takeWhile Char.isDigit
      = ds.reverse := takeWhile_all_append _ _ _ _ hdig' (by decide)
  have h1 : ds.reverse.isEmpty = false :=
    isEmpty_false_of_ne _ (by simpa using hds)
  have h2 : pre0.reverse.isEmpty = false :=
    isEmpty_false_of_ne _ (by simpa using hpre)
  simp only [parseSuffix, h, hdrop, htake, h1, h2, Bool.or_self, Bool.false_eq_true,
    if_false, List.reverse_reverse]

/-- The formatted row of a trimmed non-empty name is itself stripped. -/
theorem strip_format (name : Row) (q : Nat) (hne : name ≠ [])
    (hstr : strip name = name) :
    strip (format_item name q) = format_item name q := by
  by_cases hq : q > 1
  · rw [format_item, if_pos hq]
    obtain ⟨c, t, rfl⟩ := List.exists_cons_of_ne_nil hne
    have hc := head_not_space c t (stripL_eq_self _ hstr)
    have heq : (c :: t) ++ ' ' :: '(' :: (natDigits q ++ [')'])
        = ((c :: t) ++ ' ' :: '(' :: natDigits q) ++ [')'] := by simp
    rw [heq, strip]
    have hL : stripL (((c :: t) ++ ' ' :: '(' :: natDigits q) ++ [')'])
        = ((c :: t) ++ ' ' :: '(' :: natDigits q) ++ [')'] := by
      rw [List.cons_append, List.cons_append]
      exact stripL_of_head c _ hc
    rw [hL, stripR_append_nonspace _ _ (by decide)]
  · rw [format_item, if_neg hq]
    exact hstr

/-- The formatted row of a non-empty name is non-empty. -/
theorem format_ne_nil (name : Row) (q : Nat) (hne : name ≠ []) :
    format_item name q ≠ [] := by
  rw [format_item]
  by_cases hq : q > 1
  · rw [if_pos hq]
    obtain ⟨c, t, rfl⟩ := List.exists_cons_of_ne_nil hne
    simp
  · rw [if_neg hq]
    exact hne

/-- Round trip of the codec on a good name: parsing the formatted row
    recovers the name, and the quantity when it was at least 2; a formatted
    quantity of 0 or 1 reads back as 1 because the suffix is omitted. -/
theorem parse_format_good (name : Row) (q : Nat) (hne : name ≠ [])
    (hstr : strip name = name) (hsuf : parseSuffix name = none) :
    parse_item (format_item name q) = (name, if q > 1 then q else 1) := by
  by_cases hq : q > 1
  · rw [if_pos hq]
    rw [parse_item, strip_format name q hne hstr, format_item, if_pos hq]
    have hds : natDigits q ≠ [] := natDigits_ne_nil q (by omega)
    have hrev : (name ++ ' ' :: '(' :: (natDigits q ++ [')'])).reverse
        = ')' :: ((natDigits q).reverse ++ '(' :: (name ++ [' ']).reverse) := by
      simp
    have hps := parseSuffix_eval (name ++ ' ' :: '(' :: (natDigits q ++ [')']))
      (natDigits q) (name ++ [' ']) hrev hds (natDigits_digits q) (by simp)
    rw [hps]
    simp only [natDigits_val]
    rw [strip_append_space name hne hstr]
  · rw [if_neg hq, parse_item]
    rw [format_item, if_neg hq, hstr, hsuf]

/-- The duplicate search misses when no row parses to the item. -/
theorem findExistingAux_none (item : Row) :
    ∀ rows i, (∀ r ∈ rows, (parse_item r).1 ≠ item) →
    findExistingAux item i rows = none := by
  intro rows
  induction rows with
  | nil => intro i _; rfl
  | cons r rs ih =>
    intro i h
    rw [findExistingAux, if_neg (h r (List.mem_cons_self r rs))]
    exact ih (i + 1) (fun x hx => h x (List.mem_cons_of_mem r hx))

/-- A missed duplicate search means no row parses to the item. -/
theorem findExistingAux_none_inv (item : Row) :
    ∀ rows i, findExistingAux item i rows = none →
    ∀ r ∈ rows, (parse_item r).1 ≠ item := by
  intro rows
  induction rows with
  | nil => intro i _ r hr; simp at hr
  | cons r0 rs ih =>
    intro i h r hr
    rw [findExistingAux] at h
    by_cases hp : (parse_item r0).1 = item
    · rw [if_pos hp] at h
      exact absurd h (by simp)
    · rw [if_neg hp] at h
      rcases List.mem_cons.mp hr with rfl | hmem
      · exact hp
      · exact ih (i + 1) h r hmem

/-- The duplicate search finds the first appended matching row. -/
theorem findExistingAux_append (item : Row) :
    ∀ rows i r0 rest, (∀ r ∈ rows, (parse_item r).1 ≠ item) →
    (parse_item r0).1 = item →
    findExistingAux item i (rows ++ r0 :: rest)
      = some (i + rows.length, (parse_item r0).2) := by
  intro rows
  induction rows with
  | nil =>
    intro i r0 rest _ hmatch
    rw [List.nil_append, findExistingAux, if_pos hmatch]
    simp
  | cons r rs ih =>
    intro i r0 rest h hmatch
    rw [List.cons_append, findExistingAux, if_neg (h r (List.mem_cons_self r rs))]
    rw [ih (i + 1) r0 rest (fun x hx => h x (List.mem_cons_of_mem r hx)) hmatch]
    simp only [List.length_cons]
    have harith : i + 1 + rs.length = i + (rs.length + 1) := by omega
    rw [harith]

/-- A hit of the duplicate search names an in-range row whose parsed name
    is the item and whose parsed quantity is returned. -/
theorem findExistingAux_some (item : Row) :
    ∀ rows i j q, findExistingAux item i rows = some (j, q) →
    i ≤ j ∧ j - i < rows.length ∧
    (parse_item (rows.getD (j - i) [])).1 = item ∧
    q = (parse_item (rows.getD (j - i) [])).2 := by
  intro rows
  induction rows with
  | nil => intro i j q h; exact absurd h (by simp [findExistingAux])
  | cons r rs ih =>
    intro i j q h
    rw [findExistingAux] at h
    by_cases hp : (parse_item r).1 = item
    · rw [if_pos hp] at h
      have h1 : i = j ∧ (parse_item r).2 = q := by
        have := Option.some.inj h
        exact ⟨congrArg Prod.fst this, congrArg Prod.snd this⟩
      obtain ⟨rfl, rfl⟩ := h1
      refine ⟨Nat.le_refl i, ?_, ?_, ?_⟩ <;> simp [hp]
    · rw [if_neg hp] at h
      obtain ⟨hle, hlt, hname, hq⟩ := ih (i + 1) j q h
      have hji : j - i = (j - (i + 1)) + 1 := by omega
      rw [hji]
      refine ⟨by omega, by simp; omega, ?_, ?_⟩
      · simpa using hname
      · simpa using hq

/-- Setting the appended last element. -/
theorem set_append_singleton (l : List Row) (a b : Row) :
    (l ++ [a]).set l.length b = l ++ [b] := by
  induction l with
  | nil => rfl
  | cons x xs ih =>
    rw [List.cons_append, List.length_cons, List.set_cons_succ, ih, List.cons_append]

/-- Writing back the element already present is a no-op. -/
theorem set_getD_eq (l : List Row) : ∀ i, i < l.length → l.set i (l.getD i []) = l := by
  induction l with
  | nil => intro i h; simp at h
  | cons x xs ih =>
    intro i h
    cases i with
    | zero => rfl
    | succ n =>
      have hn : n < xs.length := by simpa using h
      rw [List.getD_cons_succ, List.set_cons_succ, ih n hn]

/-- A sheet equal to its listing consists of non-blank rows. -/
theorem get_items_all (l : List Row) (h : get_items l = l) :
    ∀ r ∈ l, (!(strip r).isEmpty) = true :=
  List.filter_eq_self.mp h

/-- Listing after appending a non-blank row. -/
theorem get_items_append (l : List Row) (r : Row) (h : (!(strip r).isEmpty) = true) :
    get_items (l ++ [r]) = get_items l ++ [r] := by
  rw [get_items, List.filter_append]
  simp [get_items, List.filter, h]

/-- Listing after an in-place rewrite with a non-blank row, on a sheet with
    no blank rows. -/
theorem get_items_set (l : List Row) (i : Nat) (r : Row) (hl : get_items l = l)
    (hr : (!(strip r).isEmpty) = true) : get_items (l.set i r) = l.set i r := by
  refine List.filter_eq_self.mpr ?_
  intro a ha
  rcases List.mem_or_eq_of_mem_set ha with hmem | rfl
  · exact get_items_all l hl a hmem
  · exact hr


/-- Round trip for quantities of at least 1 on a good name. -/
theorem parse_format_pos (name : Row) (q : Nat) (hne : name ≠ [])
    (hstr : strip name = name) (hsuf : parseSuffix name = none) (hq : 1 ≤ q) :
    parse_item (format_item name q) = (name, q) := by
  rw [parse_format_good name q hne hstr hsuf]
  by_cases h : q > 1
  · rw [if_pos h]
  · have h1 : q = 1 := by omega
    subst h1
    rfl

/-- Claim C2 (amended): for every non-empty trimmed name that does not end
    in a parenthesised digit group and every quantity of at least 1,
    parsing the formatted row yields the pair of the name and the
    quantity. -/
theorem c2_roundtrip_amended (name : Row) (qty : Nat) (hne : name ≠ [])
    (hstr : strip name = name) (hsuf : parseSuffix name = none) (hq : 1 ≤ qty) :
    parse_item (format_item name qty) = (name, qty) :=
  parse_format_pos name qty hne hstr hsuf hq

/-- Witness for the amended claim C2 at name Bolt, quantity 7. -/
theorem c2_roundtrip_amended_witness :
    ("Bolt").data ≠ [] ∧ parse_item (format_item (("Bolt").data) 7) = (("Bolt").data, 7) :=
  ⟨by decide, c2_roundtrip_amended (("Bolt").data) 7 (by decide) (by decide)
    (by decide) (by decide)⟩

/-- Counterexample to claim C2 as stated: the untrimmed name consisting of
    a blank and the letter A does not end in a parenthesised digit group,
    yet parsing its formatted row with quantity 2 does not return the name,
    because the parse strips the stored text. -/
theorem c2_roundtrip_cex :
    parseSuffix ((" A").data) = none ∧
    parse_item (format_item ((" A").data) 2) ≠ ((" A").data, 2) := by decide

/-- Claim C1 (amended): on a sheet whose rows are all non-blank and none of
    which parses to the name X, adding X with quantity q1 and then again
    with quantity q2 (both at least 1, X non-empty, trimmed and without a
    trailing parenthesised digit group) appends one row and then rewrites
    that row in place: the final sheet is the old one plus one row, the
    listing has exactly one entry whose parsed name is X and its parsed
    quantity is q1 + q2, and the second add does not change the length. -/
theorem c1_merge_amended (l : List Row) (X : Row) (q1 q2 : Nat)
    (hl : get_items l = l)
    (hfresh : ∀ r ∈ l, (parse_item r).1 ≠ X)
    (hne : X ≠ []) (hstr : strip X = X) (hsuf : parseSuffix X = none)
    (h1 : 1 ≤ q1) (h2 : 1 ≤ q2) :
    add_item (add_item l X q1) X q2 = l ++ [format_item X (q1 + q2)] ∧
    (entriesOf (add_item (add_item l X q1) X q2)).filter (fun e => e.1 == X)
      = [(X, q1 + q2)] ∧
    (add_item (add_item l X q1) X q2).length = (add_item l X q1).length := by
  have hfind1 : find_existing (get_items l) X = none := by
    rw [hl]
    exact findExistingAux_none X l 0 hfresh
  have hstep1 : add_item l X q1 = l ++ [format_item X q1] := by
    rw [add_item, hfind1]
  have hkeep1 : (!(strip (format_item X q1)).isEmpty) = true := by
    rw [strip_format X q1 hne hstr, isEmpty_false_of_ne _ (format_ne_nil X q1 hne)]
    rfl
  have hitems1 : get_items (l ++ [format_item X q1]) = l ++ [format_item X q1] := by
    rw [get_items_append l _ hkeep1, hl]
  have hpf1 : parse_item (format_item X q1) = (X, q1) :=
    parse_format_pos X q1 hne hstr hsuf h1
  have hfind2 : find_existing (get_items (l ++ [format_item X q1])) X
      = some (l.length, q1) := by
    rw [hitems1, find_existing]
    have happ := findExistingAux_append X l 0 (format_item X q1) [] hfresh
      (by rw [hpf1])
    rw [hpf1] at happ
    simpa using happ
  have hstep2 : add_item (l ++ [format_item X q1]) X q2
      = l ++ [format_item X (q1 + q2)] := by
    rw [add_item, hfind2]
    exact set_append_singleton l (format_item X q1) (format_item X (q1 + q2))
  have hmain : add_item (add_item l X q1) X q2 = l ++ [format_item X (q1 + q2)] := by
    rw [hstep1, hstep2]
  have hpf2 : parse_item (format_item X (q1 + q2)) = (X, q1 + q2) :=
    parse_format_pos X (q1 + q2) hne hstr hsuf (by omega)
  refine ⟨hmain, ?_, ?_⟩
  · have hkeep2 : (!(strip (format_item X (q1 + q2))).isEmpty) = true := by
      rw [strip_format X _ hne hstr, isEmpty_false_of_ne _ (format_ne_nil X _ hne)]
      rfl
    rw [hmain, entriesOf, get_items_append l _ hkeep2, hl, List.map_append,
      List.filter_append]
    have hnil : (l.map parse_item).filter (fun e => e.1 == X) = [] := by
      rw [List.filter_eq_nil_iff]
      intro e he
      obtain ⟨r, hr, rfl⟩ := List.mem_map.mp he
      simp only [beq_iff_eq]
      exact hfresh r hr
    rw [hnil, List.nil_append]
    simp [hpf2]
  · rw [hmain, hstep1]
    simp

/-- Witness for the amended claim C1: adding Bolt 2 then Bolt 3 to an empty
    sheet leaves one row Bolt (5). -/
theorem c1_merge_amended_witness :
    add_item (add_item ([] : List Row) (("Bolt").data) 2) (("Bolt").data) 3
      = [] ++ [format_item (("Bolt").data) (2 + 3)] ∧
    (entriesOf (add_item (add_item ([] : List Row) (("Bolt").data) 2)
        (("Bolt").data) 3)).filter (fun e => e.1 == ("Bolt").data)
      = [(("Bolt").data, 2 + 3)] ∧
    (add_item (add_item ([] : List Row) (("Bolt").data) 2) (("Bolt").data) 3).length
      = (add_item ([] : List Row) (("Bolt").data) 2).length :=
  c1_merge_amended [] (("Bolt").data) 2 3 (by decide) (by decide) (by decide)
    (by decide) (by decide) (by decide) (by decide)

/-- Counterexample to claim C1 as stated: for the name A (3), which itself
    ends in a parenthesised digit group, adding it with quantity 1 and then
    quantity 3 to an empty sheet appends two rows instead of merging, and
    the single listed entry whose parsed name equals the name carries
    quantity 3, not 1 + 3. -/
theorem c1_merge_cex :
    add_item (add_item ([] : List Row) (("A (3)").data) 1) (("A (3)").data) 3
      = [("A (3)").data, ("A (3) (3)").data] ∧
    (entriesOf (add_item (add_item ([] : List Row) (("A (3)").data) 1)
        (("A (3)").data) 3)).filter (fun e => e.1 == ("A (3)").data)
      ≠ [(("A (3)").data, 1 + 3)] := by decide

/-- Claim C3 (amended): the uniqueness that the add operation actually
    maintains is uniqueness of the exact parsed name, not of the case and
    whitespace normalised name.  On a sheet of non-blank rows whose listed
    parsed names are pairwise distinct, adding a non-empty trimmed name
    without a trailing parenthesised digit group keeps the listed parsed
    names pairwise distinct (for any quantity). -/
theorem c3_unique_amended (l : List Row) (X : Row) (q : Nat)
    (hl : get_items l = l)
    (hnd : ((get_items l).map (fun r => (parse_item r).1)).Nodup)
    (hne : X ≠ []) (hstr : strip X = X) (hsuf : parseSuffix X = none) :
    ((get_items (add_item l X q)).map (fun r => (parse_item r).1)).Nodup := by
  rw [hl] at hnd
  have hfst : ∀ n, (parse_item (format_item X n)).1 = X := by
    intro n
    rw [parse_format_good X n hne hstr hsuf]
  cases hfind : find_existing (get_items l) X with
  | none =>
    have hstep : add_item l X q = l ++ [format_item X q] := by
      rw [add_item, hfind]
    have hkeep : (!(strip (format_item X q)).isEmpty) = true := by
      rw [strip_format X q hne hstr, isEmpty_false_of_ne _ (format_ne_nil X q hne)]
      rfl
    rw [hstep, get_items_append l _ hkeep, hl, List.map_append]
    have hone : List.map (fun r => (parse_item r).1) [format_item X q] = [X] := by
      simp [hfst q]
    rw [hone, List.nodup_append]
    refine ⟨hnd, List.nodup_singleton X, ?_⟩
    intro a ha hb
    rw [List.mem_singleton] at hb
    obtain ⟨r, hr, hXr⟩ := List.mem_map.mp ha
    have hnomatch : ∀ r ∈ l, (parse_item r).1 ≠ X := by
      have hfind' : findExistingAux X 0 l = none := by
        rw [hl] at hfind
        exact hfind
      exact findExistingAux_none_inv X l 0 hfind'
    exact hnomatch r hr (hXr.trans hb)
  | some iq =>
    have hfind' : findExistingAux X 0 l = some (iq.1, iq.2) := by
      rw [hl] at hfind
      exact hfind
    obtain ⟨-, hlt, hname, -⟩ := findExistingAux_some X l 0 iq.1 iq.2 hfind'
    simp only [Nat.sub_zero] at hlt hname
    have hstep : add_item l X q = l.set iq.1 (format_item X (iq.2 + q)) := by
      rw [add_item, hfind]
    have hkeep : (!(strip (format_item X (iq.2 + q))).isEmpty) = true := by
      rw [strip_format X _ hne hstr, isEmpty_false_of_ne _ (format_ne_nil X _ hne)]
      rfl
    rw [hstep, get_items_set l iq.1 _ hl hkeep, List.map_set, hfst]
    have hmlen : iq.1 < (l.map (fun r => (parse_item r).1)).length := by
      simpa using hlt
    have hgetD : (l.map (fun r => (parse_item r).1)).getD iq.1 [] = X := by
      rw [List.getD_eq_getElem _ _ hmlen, List.getElem_map,
        ← List.getD_eq_getElem l [] hlt]
      exact hname
    rw [← hgetD, set_getD_eq _ iq.1 hmlen]
    exact hnd

/-- Witness for the amended claim C3: adding Nut to a sheet holding Bolt
    keeps the listed names pairwise distinct. -/
theorem c3_unique_amended_witness :
    ((get_items [("Bolt").data]).map (fun r => (parse_item r).1)).Nodup ∧
    ((get_items (add_item [("Bolt").data] (("Nut").data) 2)).map
      (fun r => (parse_item r).1)).Nodup :=
  ⟨by decide, c3_unique_amended [("Bolt").data] (("Nut").data) 2 (by decide)
    (by decide) (by decide) (by decide) (by decide)⟩

/-- Counterexample to claim C3 as stated: the duplicate search compares
    parsed names with exact equality, so adding bolt to a sheet already
    holding Bolt appends a second row, and the two listed entries have
    names that coincide after case and whitespace normalisation. -/
theorem c3_unique_cex :
    add_item [("Bolt").data] (("bolt").data) 1 = [("Bolt").data, ("bolt").data] ∧
    ¬ (((get_items (add_item [("Bolt").data] (("bolt").data) 1)).map
        (fun r => normName (parse_item r).1)).Nodup) := by decide

/-- Claim C4 evidence: the total-acknowledgement contract fails on the
    code.  A matching-id POST whose body is valid JSON but not an object
    hits the attribute access outside the try block and is answered 500,
    and an unparseable body is answered 400 by the framework decode, while
    the paths the handler does control are acknowledged with 200 OK: a
    mismatched bot id (whatever the body), a null body and an object body,
    with nothing enqueued on mismatch or null body. -/
theorem c4_webhook_not_always_ok :
    (telegram_webhook (("123").data) (("123").data) BodyDecode.nonObject).status = 500 ∧
    (telegram_webhook (("123").data) (("123").data) BodyDecode.nonObject).body
      ≠ ("OK").data ∧
    (telegram_webhook (("123").data) (("123").data) BodyDecode.unparseable).status
      = 400 ∧
    telegram_webhook (("123").data) (("456").data) BodyDecode.unparseable
      = ⟨200, ("OK").data, false⟩ ∧
    telegram_webhook (("123").data) (("123").data) BodyDecode.jsonNull
      = ⟨200, ("OK").data, false⟩ ∧
    telegram_webhook (("123").data) (("123").data) (BodyDecode.object true)
      = ⟨200, ("OK").data, true⟩ := by decide

/-- Claim C5 evidence: when the external store fails during the list read
    that feeds the duplicate search of the add operation (the read catches
    the failure and yields an empty list) and recovers before the write,
    the add completes successfully instead of failing, and appends a
    duplicate row for an item that was already present. -/
theorem c5_add_load_failure_completes :
    add_item_fallible true false [("A").data] (("A").data) 1
      = Except.ok [("A").data, ("A").data] := by rfl

/-- Claim C6: the remove-button handler deletes exactly the data row at the
    requested position (worksheet offset position + 2) and reports the name
    at that index of the fresh fetch when the position is in range of the
    fresh fetch, and otherwise leaves the sheet unchanged and reports the
    benign already-removed outcome. -/
theorem c6_remove_by_position_spec (sheet : List Row) (p : Int) :
    remove_by_position sheet p =
      if 0 ≤ p ∧ p < ((get_items sheet).length : Int) then
        (sheet.take p.toNat ++ sheet.drop (p.toNat + 1),
          RemoveOutcome.removed ((get_items sheet).getD p.toNat []))
      else (sheet, RemoveOutcome.alreadyRemoved) := by
  rw [remove_by_position]
  split_ifs with h
  · rw [remove_item, List.eraseIdx_eq_take_drop_succ]
  · rfl

/-- Every row surviving the clear handler is a literally empty cell. -/
theorem clear_list_all_empty (sheet : List Row) :
    ∀ r ∈ clear_list sheet, r.isEmpty = true := by
  intro r hr
  rw [clear_list] at hr
  by_cases hc : (col_values sheet).length > 1
  · rw [if_pos hc] at hr
    have hlen : (col_values sheet).length - 1 = (dropTrailingEmpty sheet).length := by
      simp [col_values]
    rw [hlen] at hr
    have hdecomp : sheet = dropTrailingEmpty sheet
        ++ (sheet.reverse.takeWhile (fun x => x.isEmpty)).reverse := by
      calc sheet = sheet.reverse.reverse := (List.reverse_reverse sheet).symm
      _ = ((sheet.reverse.takeWhile (fun x => x.isEmpty))
            ++ (sheet.reverse.dropWhile (fun x => x.isEmpty))).reverse := by
          rw [List.takeWhile_append_dropWhile]
      _ = (sheet.reverse.dropWhile (fun x => x.isEmpty)).reverse
            ++ (sheet.reverse.takeWhile (fun x => x.isEmpty)).reverse := by
          rw [List.reverse_append]
      _ = dropTrailingEmpty sheet
            ++ (sheet.reverse.takeWhile (fun x => x.isEmpty)).reverse := rfl
    have hdrop : sheet.drop (dropTrailingEmpty sheet).length
        = (sheet.reverse.takeWhile (fun x => x.isEmpty)).reverse := by
      have hleft := List.drop_left (dropTrailingEmpty sheet)
        ((sheet.reverse.takeWhile (fun x => x.isEmpty)).reverse)
      rw [← hdecomp] at hleft
      exact hleft
    rw [hdrop] at hr
    exact List.mem_takeWhile_imp (List.mem_reverse.mp hr)
  · rw [if_neg hc] at hr
    have h1 : (dropTrailingEmpty sheet).length = 0 := by
      simp only [col_values, List.length_cons] at hc
      omega
    have h2 : sheet.reverse.dropWhile (fun x => x.isEmpty) = [] := by
      have h3 : (sheet.reverse.dropWhile (fun x => x.isEmpty)).length = 0 := by
        simpa [dropTrailingEmpty] using h1
      exact List.eq_nil_of_length_eq_zero h3
    have hall := List.dropWhile_eq_nil_iff.mp h2
    exact hall r (List.mem_reverse.mpr hr)

/-- A sheet of literally empty cells lists nothing. -/
theorem get_items_of_all_empty (sheet : List Row)
    (h : ∀ r ∈ sheet, r.isEmpty = true) : get_items sheet = [] := by
  rw [get_items, List.filter_eq_nil_iff]
  intro a ha
  have h1 : a.isEmpty = true := h a ha
  have h2 : a = [] := by
    cases a with
    | nil => rfl
    | cons x t => simp [List.isEmpty] at h1
  subst h2
  simp [strip, stripL, stripR]

/-- The clear handler does nothing on a sheet of literally empty cells. -/
theorem clear_of_all_empty (sheet : List Row)
    (h : ∀ r ∈ sheet, r.isEmpty = true) : clear_list sheet = sheet := by
  have hdw : sheet.reverse.dropWhile (fun x => x.isEmpty) = [] :=
    List.dropWhile_eq_nil_iff.mpr (fun a ha => h a (List.mem_reverse.mp ha))
  have hdte : dropTrailingEmpty sheet = [] := by
    rw [dropTrailingEmpty, hdw]
    rfl
  rw [clear_list]
  simp [col_values, hdte]

/-- Claim C7: the clear handler leaves an empty listing (all data rows are
    deleted up to trailing blank cells), is idempotent, and is a literal
    no-op on the empty sheet. -/
theorem c7_clear_idempotent (sheet : List Row) :
    get_items (clear_list sheet) = [] ∧
    clear_list (clear_list sheet) = clear_list sheet ∧
    clear_list ([] : List Row) = [] :=
  ⟨get_items_of_all_empty _ (clear_list_all_empty sheet),
   clear_of_all_empty _ (clear_list_all_empty sheet),
   rfl⟩

/-- Claim C9: under the uniqueness invariant the stats pair is the number
    of distinct entry names together with the sum of all entry quantities,
    where a row without a trailing parenthesised digit group counts as
    quantity 1. -/
theorem c9_stats_spec (sheet : List Row)
    (hnd : ((entriesOf sheet).map Prod.fst).Nodup) :
    (stats_of sheet).1 = ((entriesOf sheet).map Prod.fst).dedup.length ∧
    (stats_of sheet).2 = ((entriesOf sheet).map Prod.snd).sum ∧
    ∀ r ∈ get_items sheet, parseSuffix (strip r) = none → (parse_item r).2 = 1 := by
  refine ⟨?_, ?_, ?_⟩
  · rw [List.Nodup.dedup hnd]
    simp [stats_of, entriesOf]
  · simp [stats_of, entriesOf, List.map_map, Function.comp_def]
  · intro r hr hs
    rw [parse_item, hs]

/-- Witness for claim C9 on a sheet holding Bolt and Nut (3). -/
theorem c9_stats_spec_witness :
    ((entriesOf [("Bolt").data, ("Nut (3)").data]).map Prod.fst).Nodup ∧
    ((stats_of [("Bolt").data, ("Nut (3)").data]).1
        = ((entriesOf [("Bolt").data, ("Nut (3)").data]).map Prod.fst).dedup.length ∧
      (stats_of [("Bolt").data, ("Nut (3)").data]).2
        = ((entriesOf [("Bolt").data, ("Nut (3)").data]).map Prod.snd).sum ∧
      ∀ r ∈ get_items [("Bolt").data, ("Nut (3)").data],
        parseSuffix (strip r) = none → (parse_item r).2 = 1) :=
  ⟨by decide, c9_stats_spec [("Bolt").data, ("Nut (3)").data] (by decide)⟩

/-- Claim C10: the /add handler accepts a trailing quantity of 0 with a
    non-empty name; for a new name the stored row is the bare name because
    the suffix is only emitted for quantities above 1, and that row reads
    back with quantity 1. -/
theorem c10_zero_quantity_accepted :
    handlerSplit (("Bolt (0)").data) = some (("Bolt").data, 0) ∧
    add_item ([] : List Row) (("Bolt").data) 0 = [("Bolt").data] ∧
    parse_item (("Bolt").data) = (("Bolt").data, 1) := by decide
